import Mathlib

/-!
Shallow embedding of the go-mq/mq core: the Job value type and the in-memory
broker (Queue, JobIter, Acknowledger) from the source, together with the
parts of the shared mq package that the in-memory backend uses.

Go pointer-typed arguments are modelled as Option, Go error returns as
Option MqError, byte slices as List Nat, and the window channel of the
iterator as a token counter in an explicit transition system.
-/

/-- Modelled from the spec: the Priority enum of the mq package (its
declaration is not among the provided sources).  The spec fixes an ordered
enum Low < Normal < High < Urgent, numerically comparable. -/
inductive Priority
  | low
  | normal
  | high
  | urgent
  deriving DecidableEq, Repr

/-- Modelled from the spec: numeric value of a priority, increasing with
urgency. -/
def Priority.toNat : Priority → Nat
  | .low => 0
  | .normal => 1
  | .high => 2
  | .urgent => 3

/-- The error kinds of the mq package that the in-memory backend produces
(ErrEmptyJob, ErrAlreadyClosed, ErrCantAck, io.EOF, and the free-form
errors a transaction callback may return). -/
inductive MqError
  | emptyJob
  | alreadyClosed
  | cantAck
  | eof
  | other (msg : String)
  deriving DecidableEq, Repr

/-- The Job struct of job.go, without the Acknowledger field: Go ties the
acknowledger to the job by a pointer field, which would be mutually
recursive here; the acknowledger is instead passed alongside the job
wherever job.go reads the field. -/
structure Job where
  id : String := ""
  priority : Priority := .normal
  retries : Int := 0
  errorType : String := ""
  contentType : String := ""
  raw : List Nat := []
  deriving DecidableEq, Repr

/-- Job.Size from job.go: the length of the raw payload. -/
def Job.size (j : Job) : Nat := j.raw.length

/-- The in-memory Queue struct: pending jobs, buried jobs, the shared
dequeue cursor idx, and the publishImmediately / finite flags. -/
structure Queue where
  jobs : List Job := []
  buriedJobs : List Job := []
  idx : Nat := 0
  publishImmediately : Bool := false
  finite : Bool := false
  deriving DecidableEq, Repr

/-- Queue.Publish: reject a nil job or an empty payload with ErrEmptyJob,
otherwise append the job to the pending sequence. -/
def Queue.publish (q : Queue) (j : Option Job) : Queue × Option MqError :=
  match j with
  | none => (q, some .emptyJob)
  | some job =>
      if job.size = 0 then (q, some .emptyJob)
      else ({ q with jobs := q.jobs ++ [job] }, none)

/-- Queue.PublishDelayed: same validation as Publish; when
publishImmediately is set (the transaction staging queue) it publishes at
once, otherwise it schedules a deferred publish (the spawned goroutine is
returned as a pending (delay, job) entry instead of being applied). -/
def Queue.publishDelayed (q : Queue) (j : Option Job) (delay : Nat) :
    Queue × List (Nat × Job) × Option MqError :=
  match j with
  | none => (q, [], some .emptyJob)
  | some job =>
      if job.size = 0 then (q, [], some .emptyJob)
      else if q.publishImmediately then
        let r := q.publish (some job)
        (r.1, [], r.2)
      else (q, [(delay, job)], none)

/-- JobIter.next: deliver the job at the shared cursor and advance it, or
report io.EOF when the cursor has reached the end of the pending list. -/
def Queue.nextJob (q : Queue) : Queue × Option Job :=
  if h : q.idx < q.jobs.length then
    ({ q with idx := q.idx + 1 }, some (q.jobs.get ⟨q.idx, h⟩))
  else (q, none)

/-- Sequential consumption of up to k jobs through JobIter.next, stopping
at EOF; models a single consumer draining the iterator. -/
def consumeSeq : Queue → Nat → Queue × List Job
  | q, 0 => (q, [])
  | q, Nat.succ k =>
      match q.nextJob with
      | (q2, some j) =>
          let r := consumeSeq q2 k
          (r.1, j :: r.2)
      | (q2, none) => (q2, [])

/-- The staging queue Transaction builds for its callback: fresh empty job
list with publishImmediately set. -/
def txInit : Queue := { jobs := [], publishImmediately := true }

/-- Queue.Transaction: run the callback against the staging queue; on a
callback error return it and leave the real queue untouched, otherwise
append all staged jobs to the real queue in one step. -/
def Queue.transaction (q : Queue) (txcb : Queue → Queue × Option MqError) :
    Queue × Option MqError :=
  let r := txcb txInit
  match r.2 with
  | some e => (q, some e)
  | none => ({ q with jobs := q.jobs ++ r.1.jobs }, none)

/-- Modelled from the spec: RepublishConditions.Comply of the mq package
(not among the provided sources) — a job complies when every condition in
the list holds of it; the empty list accepts every job. -/
def comply (conditions : List (Job → Bool)) (j : Job) : Bool :=
  conditions.all (fun c => c j)

/-- The loop body of Queue.RepublishBuried over the buried list: each
complying job has its ErrorType cleared in place (the buried slice keeps
the same pointer) and is handed to Publish; a Publish error stops the
loop.  Returns the updated buried list, the jobs appended to the pending
list, and the error. -/
def republishLoop (conditions : List (Job → Bool)) :
    List Job → List Job × List Job × Option MqError
  | [] => ([], [], none)
  | j :: rest =>
      if comply conditions j then
        let j2 := { j with errorType := "" }
        if j2.size = 0 then (j2 :: rest, [], some .emptyJob)
        else
          let r := republishLoop conditions rest
          (j2 :: r.1, j2 :: r.2.1, r.2.2)
      else
        let r := republishLoop conditions rest
        (j :: r.1, r.2.1, r.2.2)

/-- Queue.RepublishBuried: run the republish loop over the buried list;
publication appends to the pending list while the buried list keeps its
entries (the source never removes them, it only mutates ErrorType). -/
def Queue.republishBuried (q : Queue) (conditions : List (Job → Bool)) :
    Queue × Option MqError :=
  let r := republishLoop conditions q.buriedJobs
  ({ q with buriedJobs := r.1, jobs := q.jobs ++ r.2.1 }, r.2.2)

/-- The in-memory Acknowledger struct: the job it was stamped onto at
delivery and whether it held a window-channel slot (chn non-nil).  The
back-pointer to the queue is passed explicitly to its methods. -/
structure MemAck where
  job : Job
  hasChn : Bool
  deriving DecidableEq, Repr

/-- Acknowledger.Ack of the memory backend: release the window slot (a
channel read, modelled in the transition system below) and return nil —
the source never returns an error here and keeps no used-flag. -/
def memAckAck (q : Queue) (_a : MemAck) : Queue × Option MqError :=
  (q, none)

/-- Acknowledger.Reject of the memory backend: always releases the slot;
with requeue it republishes the job, otherwise it appends the job to the
buried list. -/
def memAckReject (q : Queue) (a : MemAck) (requeue : Bool) :
    Queue × Option MqError :=
  if requeue then q.publish (some a.job)
  else ({ q with buriedJobs := q.buriedJobs ++ [a.job] }, none)

/-- Job.Ack from job.go: fail with ErrCantAck when the job carries no
acknowledger, otherwise delegate to it. -/
def Job.ack (acknowledger : Option MemAck) (q : Queue) :
    Queue × Option MqError :=
  match acknowledger with
  | none => (q, some .cantAck)
  | some a => memAckAck q a

/-- Job.Reject from job.go: fail with ErrCantAck when the job carries no
acknowledger, otherwise delegate to it. -/
def Job.reject (acknowledger : Option MemAck) (q : Queue) (requeue : Bool) :
    Queue × Option MqError :=
  match acknowledger with
  | none => (q, some .cantAck)
  | some a => memAckReject q a requeue

/-- The in-memory Broker: the name-indexed queue map (an association list
standing for the Go map, the key playing the role of the pointer) and the
finite flag copied into new queues. -/
structure Broker where
  queues : List (String × Queue) := []
  finite : Bool := false
  deriving DecidableEq, Repr

/-- Broker.Queue: create the named queue when absent, then return the
stored entry's key as the handle to the shared queue state; the source
always returns a nil error. -/
def Broker.queueOp (b : Broker) (name : String) :
    Broker × String × Option MqError :=
  match b.queues.lookup name with
  | some _ => (b, name, none)
  | none =>
      ({ b with queues := (name, { finite := b.finite }) :: b.queues },
       name, none)

/-!
Transition system for one JobIter over its Queue.  The window channel
(chn, capacity = advertised window) is modelled by its occupancy: the
number of tokens currently in it.  A window of 0 means chn is nil and no
tokens are ever held.  Consumers inside Next that have passed acquire but
hold no job yet are counted by polling; jobs handed out by Next whose
Acknowledger has not yet been used are recorded by their delivery index in
inflight.  Disposal transitions consume the in-flight entry, reflecting
the single-use Acknowledger contract of the spec.
-/

/-- Combined state of the queue, the iterator and the window channel. -/
structure Sys where
  jobs : List Job := []
  buried : List Job := []
  idx : Nat := 0
  closed : Bool := false
  finite : Bool := false
  window : Nat := 0
  occupancy : Nat := 0
  polling : Nat := 0
  inflight : List Nat := []
  deriving DecidableEq, Repr

/-- Result of one iteration of the polling loop inside JobIter.Next. -/
inductive NextOutcome
  | delivered (j : Job)
  | errClosed
  | errEOF
  | keepPolling
  deriving DecidableEq, Repr

/-- One tick of the loop in JobIter.Next for one polling consumer: a
closed iterator releases the slot and fails with ErrAlreadyClosed; an
available job is delivered (the slot stays held by its acknowledger); EOF
in finite mode releases the slot and fails; otherwise the consumer sleeps
and polls again. -/
def pollTick (s : Sys) : Sys × NextOutcome :=
  if s.closed then
    ({ s with polling := s.polling - 1, occupancy := s.occupancy - 1 },
     .errClosed)
  else if h : s.idx < s.jobs.length then
    ({ s with polling := s.polling - 1, idx := s.idx + 1,
              inflight := s.inflight ++ [s.idx] },
     .delivered (s.jobs.get ⟨s.idx, h⟩))
  else if s.finite then
    ({ s with polling := s.polling - 1, occupancy := s.occupancy - 1 },
     .errEOF)
  else (s, .keepPolling)

/-- JobIter.Close: set the closed flag; always returns nil. -/
def closeOp (s : Sys) : Sys × Option MqError :=
  ({ s with closed := true }, none)

/-- Interleaving semantics of the system: publishes, Next entries
(acquire), poll ticks, dispositions through a delivered job's
acknowledger, and Close, each by any of the concurrent actors.  Ack and
Reject steps require the delivery to still be undisposed (the spec's
single-use Acknowledger contract). -/
inductive Step : Sys → Sys → Prop
  | publish (s : Sys) (j : Job) (hj : j.size ≠ 0) :
      Step s { s with jobs := s.jobs ++ [j] }
  | startNext (s : Sys) (h : s.window = 0 ∨ s.occupancy < s.window) :
      Step s { s with polling := s.polling + 1,
                      occupancy :=
                        if s.window = 0 then s.occupancy
                        else s.occupancy + 1 }
  | poll (s : Sys) (h : 0 < s.polling) :
      Step s (pollTick s).1
  | ackStep (s : Sys) (i : Nat) (h : i ∈ s.inflight) :
      Step s { s with inflight := s.inflight.erase i,
                      occupancy := s.occupancy - 1 }
  | rejectRequeue (s : Sys) (i : Nat) (h : i ∈ s.inflight)
      (hi : i < s.jobs.length) (hj : (s.jobs.get ⟨i, hi⟩).size ≠ 0) :
      Step s { s with inflight := s.inflight.erase i,
                      occupancy := s.occupancy - 1,
                      jobs := s.jobs ++ [s.jobs.get ⟨i, hi⟩] }
  | rejectRequeueEmpty (s : Sys) (i : Nat) (h : i ∈ s.inflight)
      (hi : i < s.jobs.length) (hj : (s.jobs.get ⟨i, hi⟩).size = 0) :
      Step s { s with inflight := s.inflight.erase i,
                      occupancy := s.occupancy - 1 }
  | rejectBury (s : Sys) (i : Nat) (h : i ∈ s.inflight)
      (hi : i < s.jobs.length) :
      Step s { s with inflight := s.inflight.erase i,
                      occupancy := s.occupancy - 1,
                      buried := s.buried ++ [s.jobs.get ⟨i, hi⟩] }
  | closeStep (s : Sys) :
      Step s (closeOp s).1

/-- Reachability: any interleaving of steps. -/
def Reachable : Sys → Sys → Prop := Relation.ReflTransGen Step

/-- The window-accounting invariant for a windowed iterator: every token
in the channel is held either by a consumer inside Next or by an
undisposed delivery, and the channel never exceeds its capacity. -/
def WindowInv (w : Nat) (s : Sys) : Prop :=
  s.window = w ∧ s.occupancy = s.polling + s.inflight.length ∧
    s.occupancy ≤ w

lemma windowInv_pollTick (w : Nat) (s : Sys)
    (hs : WindowInv w s) (hp : 0 < s.polling) :
    WindowInv w (pollTick s).1 := by
  obtain ⟨h1, h2, h3⟩ := hs
  unfold pollTick
  split
  · exact ⟨h1, by dsimp only; omega, by dsimp only; omega⟩
  · split
    · refine ⟨h1, ?_, ?_⟩
      · dsimp only
        simp only [List.length_append, List.length_cons, List.length_nil]
        omega
      · dsimp only
        omega
    · split
      · exact ⟨h1, by dsimp only; omega, by dsimp only; omega⟩
      · exact ⟨h1, h2, h3⟩

lemma windowInv_step (w : Nat) (s s' : Sys) (hw : 0 < w)
    (hstep : Step s s') (hs : WindowInv w s) : WindowInv w s' := by
  obtain ⟨h1, h2, h3⟩ := hs
  cases hstep with
  | publish j hj => exact ⟨h1, h2, h3⟩
  | startNext h =>
      have hlt : s.occupancy < s.window := by
        rcases h with h | h
        · omega
        · exact h
      have hne : ¬s.window = 0 := by omega
      refine ⟨h1, ?_, ?_⟩ <;>
        · dsimp only
          rw [if_neg hne]
          omega
  | poll h => exact windowInv_pollTick w s ⟨h1, h2, h3⟩ h
  | ackStep i h =>
      have hlen : 0 < s.inflight.length := List.length_pos_of_mem h
      have he := List.length_erase_of_mem h
      exact ⟨h1, by dsimp only; omega, by dsimp only; omega⟩
  | rejectRequeue i h hi hj =>
      have hlen : 0 < s.inflight.length := List.length_pos_of_mem h
      have he := List.length_erase_of_mem h
      exact ⟨h1, by dsimp only; omega, by dsimp only; omega⟩
  | rejectRequeueEmpty i h hi hj =>
      have hlen : 0 < s.inflight.length := List.length_pos_of_mem h
      have he := List.length_erase_of_mem h
      exact ⟨h1, by dsimp only; omega, by dsimp only; omega⟩
  | rejectBury i h hi =>
      have hlen : 0 < s.inflight.length := List.length_pos_of_mem h
      have he := List.length_erase_of_mem h
      exact ⟨h1, by dsimp only; omega, by dsimp only; omega⟩
  | closeStep => exact ⟨h1, h2, h3⟩

lemma windowInv_reachable (w : Nat) (s0 s : Sys) (hw : 0 < w)
    (h0 : WindowInv w s0) (hr : Reachable s0 s) : WindowInv w s := by
  induction hr with
  | refl => exact h0
  | tail _ hstep ih => exact windowInv_step w _ _ hw hstep ih

lemma step_preserves_closed (s s' : Sys) (hstep : Step s s')
    (hc : s.closed = true) : s'.closed = true := by
  cases hstep with
  | poll h => simp [pollTick, hc]
  | closeStep => rfl
  | publish j hj => exact hc
  | startNext h => exact hc
  | ackStep i h => exact hc
  | rejectRequeue i h hi hj => exact hc
  | rejectRequeueEmpty i h hi hj => exact hc
  | rejectBury i h hi => exact hc

/-!
Helper lemmas about the static queue operations.
-/

/-- Publishing a list of jobs one by one. -/
def publishAll (q : Queue) (js : List Job) : Queue :=
  js.foldl (fun acc j => (acc.publish (some j)).1) q

lemma publish_nonempty (q : Queue) (j : Job) (hj : j.size ≠ 0) :
    q.publish (some j) = ({ q with jobs := q.jobs ++ [j] }, none) := by
  simp only [Queue.publish]
  rw [if_neg hj]

lemma publishAll_spec (js : List Job) (q : Queue)
    (h : ∀ j ∈ js, j.size ≠ 0) :
    publishAll q js = { q with jobs := q.jobs ++ js } := by
  induction js generalizing q with
  | nil => simp [publishAll]
  | cons j rest ih =>
      have hj : j.size ≠ 0 := h j (List.mem_cons_self j rest)
      have hrest : ∀ x ∈ rest, x.size ≠ 0 :=
        fun x hx => h x (List.mem_cons_of_mem j hx)
      show publishAll (q.publish (some j)).1 rest = _
      rw [publish_nonempty q j hj]
      rw [ih _ hrest]
      simp

lemma consumeSeq_spec (k : Nat) : ∀ (q : Queue),
    q.idx + k ≤ q.jobs.length →
    (consumeSeq q k).2 = (q.jobs.drop q.idx).take k := by
  induction k with
  | zero =>
      intro q _
      simp [consumeSeq]
  | succ k ih =>
      intro q h
      have hidx : q.idx < q.jobs.length := by omega
      show (match q.nextJob with
            | (q2, some j) => ((consumeSeq q2 k).1, j :: (consumeSeq q2 k).2)
            | (q2, none) => (q2, [])).2 = _
      unfold Queue.nextJob
      rw [dif_pos hidx]
      dsimp only
      rw [ih _ (by dsimp only; omega)]
      dsimp only
      rw [List.drop_eq_getElem_cons hidx]
      rfl

lemma errType_clear_size (j : Job) :
    ({ j with errorType := "" } : Job).size = j.size := rfl

lemma republishLoop_spec (conditions : List (Job → Bool)) (l : List Job)
    (h : ∀ j ∈ l, j.size ≠ 0) :
    republishLoop conditions l =
      (l.map (fun j => if comply conditions j then { j with errorType := "" }
                       else j),
       (l.filter (comply conditions)).map
         (fun j => { j with errorType := "" }),
       none) := by
  induction l with
  | nil => simp [republishLoop]
  | cons j rest ih =>
      have hj : j.size ≠ 0 := h j (List.mem_cons_self j rest)
      have hj2 : ¬({ j with errorType := "" } : Job).size = 0 := by
        rw [errType_clear_size]
        exact hj
      have hrest : ∀ x ∈ rest, x.size ≠ 0 :=
        fun x hx => h x (List.mem_cons_of_mem j hx)
      unfold republishLoop
      by_cases hc : comply conditions j
      · rw [if_pos hc, if_neg hj2, ih hrest]
        simp [hc, List.filter_cons]
      · rw [if_neg hc, ih hrest]
        simp [hc, List.filter_cons]

/-!
Claim theorems.
-/

/-- C1: for every JobIter created by Consume(w) with w > 0, in every state
reachable from the iterator's initial state (no consumer inside Next, no
undisposed delivery, empty window channel) the number of jobs returned by
Next but not yet disposed through Ack or Reject never exceeds w; and a
delivering poll tick leaves the channel occupancy unchanged — the slot is
released only by a disposition step, never by the delivery itself. -/
theorem c1_window_invariant (w : Nat) (s0 s : Sys) (hw : 0 < w)
    (hwin : s0.window = w) (hpoll : s0.polling = 0)
    (hinf : s0.inflight = []) (hocc : s0.occupancy = 0)
    (hr : Reachable s0 s) :
    s.inflight.length ≤ w ∧
      (s.closed = false → s.idx < s.jobs.length →
        (pollTick s).1.occupancy = s.occupancy) := by
  have h0 : WindowInv w s0 := by
    refine ⟨hwin, ?_, ?_⟩
    · rw [hocc, hpoll, hinf]
      rfl
    · omega
  have hinv : WindowInv w s := windowInv_reachable w s0 s hw h0 hr
  obtain ⟨h1, h2, h3⟩ := hinv
  constructor
  · omega
  · intro hc hj
    unfold pollTick
    rw [if_neg (by simp [hc]), dif_pos hj]

/-- C1 witness: the initial state of a window-1 iterator satisfies the
bound and the delivery-preserves-occupancy property. -/
theorem c1_window_invariant_witness :
    ({ window := 1 } : Sys).inflight.length ≤ 1 ∧
      (({ window := 1 } : Sys).closed = false →
        ({ window := 1 } : Sys).idx < ({ window := 1 } : Sys).jobs.length →
        (pollTick { window := 1 }).1.occupancy =
          ({ window := 1 } : Sys).occupancy) :=
  c1_window_invariant 1 { window := 1 } { window := 1 } (by decide)
    rfl rfl rfl rfl Relation.ReflTransGen.refl

/-- C3: Close is idempotent (a second Close leaves the state unchanged)
and both calls return nil; once the closed flag is set, any poll tick of a
Next call — including one that was already blocked polling — returns the
already-closed error, delivers no job, and releases the window slot it had
acquired; and no step of the system ever clears the closed flag. -/
theorem c3_close_idempotent_next_fails (s s' : Sys) :
    (closeOp (closeOp s).1).1 = (closeOp s).1 ∧
    (closeOp s).2 = none ∧
    (closeOp (closeOp s).1).2 = none ∧
    (s.closed = true →
      pollTick s = ({ s with polling := s.polling - 1,
                             occupancy := s.occupancy - 1 },
                    NextOutcome.errClosed)) ∧
    (Step s s' → s.closed = true → s'.closed = true) := by
  refine ⟨rfl, rfl, rfl, ?_, ?_⟩
  · intro hc
    unfold pollTick
    rw [if_pos hc]
  · exact fun hstep hc => step_preserves_closed s s' hstep hc

/-- C3 witness: on a concrete closed state with one blocked consumer the
poll tick fails with the already-closed outcome and frees the slot, and
the close step out of a closed state keeps it closed. -/
theorem c3_close_idempotent_next_fails_witness :
    pollTick { closed := true, polling := 1, occupancy := 1, window := 1 } =
      ({ closed := true, polling := 0, occupancy := 0, window := 1 },
       NextOutcome.errClosed) ∧
    (closeOp ({ closed := true } : Sys)).1.closed = true :=
  ⟨(c3_close_idempotent_next_fails
      { closed := true, polling := 1, occupancy := 1, window := 1 }
      { closed := true, polling := 1, occupancy := 1, window := 1 }).2.2.2.1
      rfl,
   (c3_close_idempotent_next_fails { closed := true }
      (closeOp ({ closed := true } : Sys)).1).2.2.2.2
      (Step.closeStep { closed := true }) rfl⟩

/-- C2: a transaction whose callback errors returns that error and leaves
the queue exactly as it was (no staged job is merged); a succeeding
callback appends all jobs staged against the staging queue to the real
queue in a single step. -/
theorem c2_transaction_atomic (q : Queue)
    (txcb : Queue → Queue × Option MqError) :
    (∀ e, (txcb txInit).2 = some e → q.transaction txcb = (q, some e)) ∧
    ((txcb txInit).2 = none →
      q.transaction txcb =
        ({ q with jobs := q.jobs ++ (txcb txInit).1.jobs }, none)) := by
  constructor
  · intro e he
    simp only [Queue.transaction, he]
  · intro he
    simp only [Queue.transaction, he]

/-- C2 witness: a failing callback leaves a concrete queue untouched and
surfaces its error; a succeeding callback that stages one job merges
exactly that job. -/
theorem c2_transaction_atomic_witness :
    Queue.transaction { jobs := [{ raw := [1] }] }
        (fun s => (s, some (MqError.other "boom"))) =
      ({ jobs := [{ raw := [1] }] }, some (MqError.other "boom")) ∧
    Queue.transaction {} (fun s => ((s.publish (some { raw := [7] })).1, none)) =
      ({ jobs := [{ raw := [7] }] }, none) := by
  constructor
  · exact (c2_transaction_atomic { jobs := [{ raw := [1] }] }
      (fun s => (s, some (MqError.other "boom")))).1 (MqError.other "boom") rfl
  · have h := (c2_transaction_atomic {}
      (fun s => ((s.publish (some { raw := [7] })).1, none))).2 rfl
    simpa using h

/-- C5: Publish and PublishDelayed fail with the EmptyJob error exactly
when the job is nil or its payload is empty; in the error case the queue
is unchanged, and otherwise Publish appends the job to the pending
sequence. -/
theorem c5_publish_empty_job (q : Queue) (j : Option Job) (d : Nat) :
    ((q.publish j).2 = some MqError.emptyJob ↔
        j = none ∨ ∃ jb, j = some jb ∧ jb.size = 0) ∧
    ((q.publishDelayed j d).2.2 = some MqError.emptyJob ↔
        j = none ∨ ∃ jb, j = some jb ∧ jb.size = 0) ∧
    ((q.publish j).2 = some MqError.emptyJob → (q.publish j).1 = q) ∧
    ((q.publishDelayed j d).2.2 = some MqError.emptyJob →
        (q.publishDelayed j d).1 = q) ∧
    (∀ jb, j = some jb → jb.size ≠ 0 →
        q.publish j = ({ q with jobs := q.jobs ++ [jb] }, none)) := by
  rcases j with _ | jb
  · simp [Queue.publish, Queue.publishDelayed]
  · by_cases hs : jb.size = 0
    · simp [Queue.publish, Queue.publishDelayed, hs]
    · by_cases hpi : q.publishImmediately
      · simp [Queue.publish, Queue.publishDelayed, hs, hpi]
      · simp [Queue.publish, Queue.publishDelayed, hs, hpi]

/-- C5 witness: publishing nil fails with EmptyJob on a concrete queue,
and publishing a concrete non-empty job appends it. -/
theorem c5_publish_empty_job_witness :
    (Queue.publish {} none).2 = some MqError.emptyJob ∧
    Queue.publish {} (some { raw := [5] }) =
      ({ jobs := [] ++ [{ raw := [5] }] }, none) :=
  ⟨(c5_publish_empty_job {} none 0).1.mpr (Or.inl rfl),
   (c5_publish_empty_job {} (some { raw := [5] }) 0).2.2.2.2
     { raw := [5] } rfl (by decide)⟩

/-- C9: Broker.Queue is memoized — a second lookup of the same name
creates nothing (the broker state is unchanged), returns the same handle
into the shared queue map, and both calls succeed with a nil error. -/
theorem c9_queue_memoized (b : Broker) (name : String) :
    ((b.queueOp name).1.queueOp name).1 = (b.queueOp name).1 ∧
    ((b.queueOp name).1.queueOp name).2.1 = (b.queueOp name).2.1 ∧
    (b.queueOp name).2.2 = none ∧
    ((b.queueOp name).1.queueOp name).2.2 = none := by
  unfold Broker.queueOp
  cases hl : b.queues.lookup name with
  | some q => simp [hl]
  | none => simp [hl, List.lookup]

/-- C10: inside a transaction the staging queue publishes a delayed job
immediately — no deferred publish is scheduled — so after the callback
succeeds the job is merged into the real queue without the delay having
elapsed. -/
theorem c10_delayed_in_tx_immediate (q : Queue) (j : Job) (d : Nat)
    (hj : j.size ≠ 0) :
    txInit.publishDelayed (some j) d = ({ txInit with jobs := [j] }, [], none) ∧
    q.transaction (fun s =>
        ((s.publishDelayed (some j) d).1, (s.publishDelayed (some j) d).2.2)) =
      ({ q with jobs := q.jobs ++ [j] }, none) := by
  have h1 : txInit.publishDelayed (some j) d =
      ({ txInit with jobs := [j] }, [], none) := by
    simp [Queue.publishDelayed, txInit, hj, Queue.publish]
  refine ⟨h1, ?_⟩
  simp only [Queue.transaction, h1]

/-- C10 witness: a concrete delayed publish inside a transaction lands the
job in the queue at commit with no deferred schedule. -/
theorem c10_delayed_in_tx_immediate_witness :
    Queue.transaction {} (fun s =>
        ((s.publishDelayed (some { raw := [9] }) 5).1,
         (s.publishDelayed (some { raw := [9] }) 5).2.2)) =
      ({ jobs := [] ++ [{ raw := [9] }] }, none) :=
  (c10_delayed_in_tx_immediate {} { raw := [9] } 5 (by decide)).2

lemma sum_map_const (l : List Job) (f : Job → Nat) (c : Nat)
    (h : ∀ j ∈ l, f j = c) : (l.map f).sum = l.length * c := by
  induction l with
  | nil => simp
  | cons j rest ih =>
      have hj : f j = c := h j (List.mem_cons_self j rest)
      have hrest : ∀ x ∈ rest, f x = c :=
        fun x hx => h x (List.mem_cons_of_mem j hx)
      simp [hj, ih hrest, Nat.succ_mul]
      omega

/-- C4 counterexample: publishing one low-priority job and then one
urgent-priority job into the in-memory queue and consuming two jobs
sequentially delivers the low job first, so the sum of priorities of the
first n = 1 delivered jobs is not n times Urgent as the claim asserts. -/
theorem c4_priority_counterexample :
    ((((consumeSeq
          (publishAll (publishAll {} [{ priority := .low, raw := [0] }])
            [{ priority := .urgent, raw := [0] }]) 2).2.take 1).map
        (fun j => j.priority.toNat)).sum ≠ 1 * Priority.urgent.toNat) := by
  decide

/-- C4 amended: the in-memory queue delivers in insertion order and
ignores priority — publishing n low-priority jobs and then n
urgent-priority jobs and consuming 2n jobs sequentially yields the n low
jobs first and the n urgent jobs last, so the first-half priority sum is
n times Low and the second-half sum n times Urgent. -/
theorem c4_fifo_amended (n : Nat) (_hn : 0 < n) (lows urgs : List Job)
    (hln : lows.length = n) (hun : urgs.length = n)
    (hlp : ∀ j ∈ lows, j.priority = Priority.low ∧ j.size ≠ 0)
    (hup : ∀ j ∈ urgs, j.priority = Priority.urgent ∧ j.size ≠ 0) :
    (consumeSeq (publishAll (publishAll {} lows) urgs) (2 * n)).2 =
      lows ++ urgs ∧
    (((lows ++ urgs).take n).map (fun j => j.priority.toNat)).sum =
      n * Priority.low.toNat ∧
    (((lows ++ urgs).drop n).map (fun j => j.priority.toNat)).sum =
      n * Priority.urgent.toNat := by
  have hq : publishAll (publishAll {} lows) urgs =
      { jobs := lows ++ urgs } := by
    rw [publishAll_spec lows {} (fun j hj => (hlp j hj).2)]
    rw [publishAll_spec urgs _ (fun j hj => (hup j hj).2)]
    simp
  have hlen : (lows ++ urgs).length = 2 * n := by
    simp [hln, hun]
    omega
  have htake : (lows ++ urgs).take n = lows := List.take_left' hln
  have hdrop : (lows ++ urgs).drop n = urgs := List.drop_left' hln
  refine ⟨?_, ?_, ?_⟩
  · rw [hq, consumeSeq_spec]
    · show ((lows ++ urgs).drop 0).take (2 * n) = lows ++ urgs
      rw [List.drop_zero, ← hlen, List.take_length]
    · show 0 + 2 * n ≤ (lows ++ urgs).length
      omega
  · rw [htake, sum_map_const lows _ Priority.low.toNat
      (fun j hj => by rw [(hlp j hj).1]), hln]
  · rw [hdrop, sum_map_const urgs _ Priority.urgent.toNat
      (fun j hj => by rw [(hup j hj).1]), hun]

/-- C4 amended witness: the concrete n = 1 run delivers the low job then
the urgent job with the amended sums. -/
theorem c4_fifo_amended_witness :
    (consumeSeq (publishAll (publishAll {} [{ priority := .low, raw := [0] }])
        [{ priority := .urgent, raw := [0] }]) (2 * 1)).2 =
      ([{ priority := .low, raw := [0] }] : List Job) ++
        [{ priority := .urgent, raw := [0] }] ∧
    (((([{ priority := .low, raw := [0] }] : List Job) ++
        ([{ priority := .urgent, raw := [0] }] : List Job)).take 1).map
      (fun j => j.priority.toNat)).sum = 1 * Priority.low.toNat ∧
    (((([{ priority := .low, raw := [0] }] : List Job) ++
        ([{ priority := .urgent, raw := [0] }] : List Job)).drop 1).map
      (fun j => j.priority.toNat)).sum = 1 * Priority.urgent.toNat :=
  c4_fifo_amended 1 (by decide) [{ priority := .low, raw := [0] }]
    [{ priority := .urgent, raw := [0] }] rfl rfl (by decide) (by decide)

/-- C6 counterexample: a job delivered by the in-memory iterator carries a
queue-bound acknowledger; the first Ack succeeds, and a second Ack on the
same delivered job does not fail with the cannot-acknowledge error — it
returns nil again, refuting the claim's second-disposition clause. -/
theorem c6_double_ack_counterexample :
    (Queue.nextJob { jobs := [{ raw := [1] }] }).2 = some { raw := [1] } ∧
    (Job.ack (some { job := { raw := [1] }, hasChn := false })
        (Queue.nextJob { jobs := [{ raw := [1] }] }).1).2 = none ∧
    (Job.ack (some { job := { raw := [1] }, hasChn := false })
        (Job.ack (some { job := { raw := [1] }, hasChn := false })
          (Queue.nextJob { jobs := [{ raw := [1] }] }).1).1).2 ≠
      some MqError.cantAck := by
  decide

/-- C6 amended: Ack or Reject on a job with a nil acknowledger fails with
the cannot-acknowledge error, while a second disposition on a job
delivered by the in-memory queue — Ack or Reject, following an Ack or a
Reject — does not fail with the cannot-acknowledge error: the memory
acknowledger keeps no used-flag and the second call returns nil (for
Reject with requeue this uses that the job payload is non-empty, as it is
for every job that passed publish validation). -/
theorem c6_cantack_amended (q : Queue) (requeue requeue2 : Bool)
    (a : MemAck) (hj : a.job.size ≠ 0) :
    Job.ack none q = (q, some MqError.cantAck) ∧
    Job.reject none q requeue = (q, some MqError.cantAck) ∧
    (Job.ack (some a) q).2 = none ∧
    (Job.ack (some a) (Job.ack (some a) q).1).2 = none ∧
    (Job.reject (some a) (Job.ack (some a) q).1 requeue).2 = none ∧
    (Job.reject (some a) (Job.reject (some a) q requeue).1 requeue2).2 =
      none ∧
    (Job.ack (some a) (Job.reject (some a) q requeue).1).2 = none := by
  have hr : ∀ (q2 : Queue) (r : Bool), (Job.reject (some a) q2 r).2 = none := by
    intro q2 r
    cases r
    · rfl
    · show (q2.publish (some a.job)).2 = none
      rw [publish_nonempty q2 a.job hj]
  exact ⟨rfl, rfl, rfl, rfl, hr _ requeue, hr _ requeue2, rfl⟩

/-- C6 amended witness: on a concrete delivered job, nil-acknowledger
dispositions fail with cannot-acknowledge while a second disposition in
every Ack/Reject combination returns nil. -/
theorem c6_cantack_amended_witness :
    Job.ack none {} = ({}, some MqError.cantAck) ∧
    Job.reject none {} false = ({}, some MqError.cantAck) ∧
    (Job.ack (some { job := { raw := [1] }, hasChn := false }) {}).2 = none ∧
    (Job.ack (some { job := { raw := [1] }, hasChn := false })
      (Job.ack (some { job := { raw := [1] }, hasChn := false }) {}).1).2 =
      none ∧
    (Job.reject (some { job := { raw := [1] }, hasChn := false })
      (Job.ack (some { job := { raw := [1] }, hasChn := false }) {}).1
      false).2 = none ∧
    (Job.reject (some { job := { raw := [1] }, hasChn := false })
      (Job.reject (some { job := { raw := [1] }, hasChn := false }) {}
        false).1 true).2 = none ∧
    (Job.ack (some { job := { raw := [1] }, hasChn := false })
      (Job.reject (some { job := { raw := [1] }, hasChn := false }) {}
        false).1).2 = none :=
  c6_cantack_amended {} false true { job := { raw := [1] }, hasChn := false }
    (by decide)

/-- C7: RepublishBuried republishes into the pending queue exactly the
buried jobs satisfying every given condition (all of them when no
condition is given), in buried-insertion order, each with its ErrorType
cleared before republication; with non-empty payloads it reports no
error. -/
theorem c7_republish_buried (q : Queue) (conditions : List (Job → Bool))
    (h : ∀ j ∈ q.buriedJobs, j.size ≠ 0) :
    (q.republishBuried conditions).2 = none ∧
    (q.republishBuried conditions).1.jobs =
      q.jobs ++ (q.buriedJobs.filter (comply conditions)).map
        (fun j => { j with errorType := "" }) ∧
    (q.republishBuried []).1.jobs =
      q.jobs ++ q.buriedJobs.map (fun j => { j with errorType := "" }) := by
  have hs := republishLoop_spec conditions q.buriedJobs h
  have hs0 := republishLoop_spec [] q.buriedJobs h
  refine ⟨?_, ?_, ?_⟩
  · simp only [Queue.republishBuried, hs]
  · simp only [Queue.republishBuried, hs]
  · simp only [Queue.republishBuried, hs0]
    have : ∀ j : Job, comply [] j = true := fun j => rfl
    simp [List.filter_eq_self.mpr (fun j _ => this j)]

/-- C7 witness: one concrete buried job with an error classification is
republished with the classification cleared and no error reported. -/
theorem c7_republish_buried_witness :
    (Queue.republishBuried
        { buriedJobs := [{ raw := [2], errorType := "boom" }] } []).2 = none ∧
    (Queue.republishBuried
        { buriedJobs := [{ raw := [2], errorType := "boom" }] } []).1.jobs =
      [] ++ ([{ raw := [2], errorType := "boom" }].filter (comply [])).map
        (fun j => { j with errorType := "" }) :=
  ⟨(c7_republish_buried { buriedJobs := [{ raw := [2], errorType := "boom" }] }
      [] (by decide)).1,
   (c7_republish_buried { buriedJobs := [{ raw := [2], errorType := "boom" }] }
      [] (by decide)).2.1⟩

/-- C8 counterexample: a job delivered and rejected without requeue sits
in the buried store; after RepublishBuried with no conditions (which the
job matches) the job is still an element of the buried store — the
in-memory implementation never removes buried entries. -/
theorem c8_still_buried_counterexample :
    ({ raw := [3] } : Job) ∈
      ((Queue.republishBuried
          (memAckReject { jobs := [{ raw := [3] }], idx := 1 }
            { job := { raw := [3] }, hasChn := false } false).1
          []).1).buriedJobs := by
  decide

/-- C8 amended: Reject without requeue appends the job to the buried
store, and a RepublishBuried call whose conditions the job matches
appends the job (with its error classification cleared) back into the
pending circulation — but the job also remains an element of the buried
store, which the in-memory implementation never empties. -/
theorem c8_bury_republish_amended (q : Queue) (a : MemAck)
    (conditions : List (Job → Bool)) (j : Job)
    (hsz : ∀ x ∈ q.buriedJobs, x.size ≠ 0)
    (hj : j ∈ q.buriedJobs) (hc : comply conditions j = true) :
    (memAckReject q a false).1.buriedJobs = q.buriedJobs ++ [a.job] ∧
    ({ j with errorType := "" } : Job) ∈
      (q.republishBuried conditions).1.jobs ∧
    ({ j with errorType := "" } : Job) ∈
      (q.republishBuried conditions).1.buriedJobs := by
  have hs := republishLoop_spec conditions q.buriedJobs hsz
  refine ⟨rfl, ?_, ?_⟩
  · simp only [Queue.republishBuried, hs]
    refine List.mem_append_right _ ?_
    exact List.mem_map_of_mem _ (List.mem_filter.mpr ⟨hj, hc⟩)
  · simp only [Queue.republishBuried, hs]
    have himg := List.mem_map_of_mem
      (fun x => if comply conditions x then ({ x with errorType := "" } : Job)
                else x) hj
    simpa [hc] using himg

/-- C8 amended witness: a concrete buried job with an error
classification is both back in circulation (cleared) and still present in
the buried store after RepublishBuried, and a concrete reject-no-requeue
buries its job. -/
theorem c8_bury_republish_amended_witness :
    (memAckReject { buriedJobs := [{ raw := [3], errorType := "x" }] }
        { job := { raw := [4] }, hasChn := false } false).1.buriedJobs =
      [{ raw := [3], errorType := "x" }] ++ [{ raw := [4] }] ∧
    ({ raw := [3], errorType := "" } : Job) ∈
      (Queue.republishBuried
        { buriedJobs := [{ raw := [3], errorType := "x" }] } []).1.jobs ∧
    ({ raw := [3], errorType := "" } : Job) ∈
      (Queue.republishBuried
        { buriedJobs := [{ raw := [3], errorType := "x" }] } []).1.buriedJobs := by
  have h := c8_bury_republish_amended
    { buriedJobs := [{ raw := [3], errorType := "x" }] }
    { job := { raw := [4] }, hasChn := false } []
    { raw := [3], errorType := "x" } (by decide) (by decide) (by decide)
  exact ⟨h.1, h.2.1, h.2.2⟩
